import Mathlib

/-!
Verification of the ISMIR paper downloader (`download.py`).

The development shallowly embeds the program's pure logic and its effectful
orchestration over explicit environments:

* Python strings are modelled as `List Char` (sequences of code points);
  `lower`, `strip`, `split`, substring tests and the specific regular
  expressions appearing in the source are modelled character by character on
  the ASCII fragment that the regexes' character classes are built from.
* `difflib.SequenceMatcher(None, a, b).ratio()` (used by
  `calculate_title_similarity`) is embedded in full, including the
  "autojunk" purge of popular elements that activates when the second
  sequence has at least 200 elements.  Ratios are rational numbers; CPython
  computes `2.0 * matches / length` in floating point, which agrees with the
  rational value whenever the claims compare it against `1.0` or against
  another ratio that differs as a rational by more than rounding allows.
* Network and filesystem effects are oracles: a `GetOutcome` describes what
  `requests.get` produced, a `SearchEnv` describes what the arXiv search
  yielded (including the possibility of a raised exception), and the
  filesystem is a map from filenames to file contents.  Exceptions are
  explicit `Except` values so that the placement of `try/except` blocks in
  the source is visible in the model.  The `except StopIteration` handler
  in `download_papers` is dead code under PEP 479 semantics (a generator
  cannot leak `StopIteration`, and nothing else in the guarded block raises
  it), so the model has no `StopIteration` outcome.
-/

namespace IsmirDL

/-! ## Python string primitives -/

/-- ASCII fragment of Python's whitespace class, used by `str.strip()` and by
the regex class `\s`: space, tab, newline, carriage return, vertical tab and
form feed. -/
def pyIsSpace (c : Char) : Bool :=
  c = ' ' || c = '\t' || c = '\n' || c = '\r' || c = '\x0b' || c = '\x0c'

/-- Python `str.strip()`: remove leading and trailing whitespace. -/
def pyStrip (s : List Char) : List Char :=
  ((s.dropWhile pyIsSpace).reverse.dropWhile pyIsSpace).reverse

/-- Python `str.lower()` on the ASCII fragment (`Char.toLower` shifts exactly
the ASCII uppercase letters). -/
def pyLower (s : List Char) : List Char :=
  s.map Char.toLower

/-- Decidable test that `pat` occurs as a contiguous substring of `s`,
modelling Python's `pat in s`. -/
def hasSubstr (pat s : List Char) : Bool :=
  decide (pat <:+: s)

/-! ## The URL regular expression (download.py lines 16-31)

The pattern is `https?://[^\s<>"]+|www\.[^\s<>"]+\.[^\s<>"]+`.  Python's `re`
uses leftmost matching: starting positions are tried left to right, and at
each position the two alternatives are tried in order, each with greedy
(backtracking) repetition.  For this concrete pattern that semantics
reduces to the following character-level description, which was the shape
used below:

* alternative 1 matches `http`, then optionally `s` (preferred), then
  `://`, then the maximal nonempty run of characters outside `\s<>"`;
* alternative 2 matches `www.` followed by the maximal run of characters
  outside `\s<>"`, provided that run contains a dot that has at least one
  run character before it and after it; greediness makes the match swallow
  the whole run regardless of which dot splits it. -/

/-- The complement of the character class `[\s<>"]` (ASCII fragment of
`\s`). -/
def isUrlChar (c : Char) : Bool :=
  !(pyIsSpace c || c = '<' || c = '>' || c = '"')

/-- Length of the maximal run of URL characters at the front of `cs`
(greedy `[^\s<>"]+` with nothing mandatory after it). -/
def urlRunLen (cs : List Char) : Nat :=
  (cs.takeWhile isUrlChar).length

/-- Match of the first alternative `https?://[^\s<>"]+` at the head of
`cs`, returning the number of characters consumed. -/
def matchHttpAt (cs : List Char) : Option Nat :=
  if "http".data.isPrefixOf cs then
    if "s://".data.isPrefixOf (cs.drop 4) && 1 ≤ urlRunLen (cs.drop 8) then
      some (8 + urlRunLen (cs.drop 8))
    else if "://".data.isPrefixOf (cs.drop 4) && 1 ≤ urlRunLen (cs.drop 7)
        then some (7 + urlRunLen (cs.drop 7))
    else none
  else none

/-- Does the run after `www.` contain a dot with at least one run character
before it and after it?  This is exactly when `[^\s<>"]+\.[^\s<>"]+` can
split the run. -/
def hasInternalDot (run : List Char) : Bool :=
  (List.range run.length).any
    (fun k => decide (1 ≤ k) && decide (k + 1 < run.length) &&
      run.getD k ' ' == '.')

/-- Match of the second alternative `www\.[^\s<>"]+\.[^\s<>"]+` at the head
of `cs`. -/
def matchWwwAt (cs : List Char) : Option Nat :=
  if "www.".data.isPrefixOf cs then
    if hasInternalDot ((cs.drop 4).takeWhile isUrlChar) then
      some (4 + ((cs.drop 4).takeWhile isUrlChar).length)
    else none
  else none

/-- Match of the whole URL pattern at the head of `cs` (first alternative
preferred, as in Python's ordered alternation). -/
def matchUrlAt (cs : List Char) : Option Nat :=
  match matchHttpAt cs with
  | some l => some l
  | none => matchWwwAt cs

/-- Model of `re.search` for the URL pattern: scan starting positions left to right;
`i` is the index of the head of `cs` in the original string.  Returns the
(start, length) of the leftmost match. -/
def reSearchAux : Nat → List Char → Option (Nat × Nat)
  | _, [] => none
  | i, c :: rest =>
    match matchUrlAt (c :: rest) with
    | some l => some (i, l)
    | none => reSearchAux (i + 1) rest

/-- Model of `re.search(url_pattern, s)` as (start index, match length). -/
def reSearchUrl (cs : List Char) : Option (Nat × Nat) :=
  reSearchAux 0 cs

/-- Fuel-driven core of `re.sub(url_pattern, '', s)`: delete every
non-overlapping match, scanning left to right and resuming after each
match.  A match of length `l ≥ 1` (`matchUrlAt_pos`) skips `l` characters,
i.e. the head plus `l - 1` characters of the tail.  Structural recursion on
the fuel keeps the function kernel-computable; the fuel-out branch is
unreachable whenever the fuel is at least the length of the string, which
is how `reSubUrl` instantiates it. -/
def reSubFuel : Nat → List Char → List Char
  | _, [] => []
  | 0, cs => cs
  | fuel + 1, c :: rest =>
    match matchUrlAt (c :: rest) with
    | some l => reSubFuel fuel (rest.drop (l - 1))
    | none => c :: reSubFuel fuel rest

/-- Model of `re.sub(url_pattern, '', s)`. -/
def reSubUrl (cs : List Char) : List Char :=
  reSubFuel cs.length cs

/-- Fuel-driven enumeration of the (start, length) spans deleted by
`re.sub`, in order; `i` is the index of the head of `cs` in the original
string. -/
def urlMatchesFuel : Nat → Nat → List Char → List (Nat × Nat)
  | _, _, [] => []
  | 0, _, _ => []
  | fuel + 1, i, c :: rest =>
    match matchUrlAt (c :: rest) with
    | some l => (i, l) :: urlMatchesFuel fuel (i + l) (rest.drop (l - 1))
    | none => urlMatchesFuel fuel (i + 1) rest

/-- All spans matched by the URL pattern in `cs`. -/
def urlMatchesOf (cs : List Char) : List (Nat × Nat) :=
  urlMatchesFuel cs.length 0 cs

/-- Model of `extract_url_and_title`: if the URL pattern matches, return the matched
URL and the title with all matches deleted and stripped; otherwise return
no URL and the original title. -/
def extract_url_and_title (title_text : List Char) :
    Option (List Char) × List Char :=
  match reSearchUrl title_text with
  | some sl => (some ((title_text.drop sl.1).take sl.2),
      pyStrip (reSubUrl title_text))
  | none => (none, title_text)

/-! ## `sanitize_filename` (download.py lines 76-83) -/

/-- The character class `[<>:"/\\|?*]` of the first `re.sub` in
`sanitize_filename`: the reserved filesystem characters. -/
def isReservedChar (c : Char) : Bool :=
  c = '<' || c = '>' || c = ':' || c = '"' || c = '/' || c = '\\' ||
    c = '|' || c = '?' || c = '*'

/-- Model of `sanitize_filename`: drop reserved characters, replace spaces by
underscores, truncate to 240 characters, append ".pdf". -/
def sanitize_filename (title : List Char) : List Char :=
  let c1 := title.filter (fun c => !(isReservedChar c))
  let c2 := c1.map (fun c => if c = ' ' then '_' else c)
  c2.take 240 ++ ".pdf".data

/-! ## `difflib.SequenceMatcher(None, a, b).ratio()`

`calculate_title_similarity` (download.py lines 57-74) normalizes both
titles and calls `SequenceMatcher(None, t1, t2).ratio()`.  The matcher is
embedded in full from the CPython implementation: `__chain_b` builds `b2j`
and purges "popular" characters when `len(b) >= 200` (autojunk; `isjunk` is
`None`, so the junk purge and the junk extension loops of
`find_longest_match` are no-ops), `find_longest_match` runs a dynamic
program over rows `j2len` followed by equality extension on both ends, and
`get_matching_blocks` recursively collects blocks around each longest
match.  `ratio()` is `2 * M / (len(a) + len(b))` with `M` the total size of
the matching blocks (`1.0` for two empty sequences). -/

/-- A matching block `(i, j, size)`: `a[i : i+size] == b[j : j+size]`. -/
structure MBlock where
  besti : Nat
  bestj : Nat
  size : Nat
deriving Repr, DecidableEq

/-- Positions of character `c` in `b`, ascending: the `b2j` entry for `c`
before any purging. -/
def positionsOf (b : List Char) (c : Char) : List Nat :=
  (List.range b.length).filter (fun j => b.getD j ' ' == c)

/-- The autojunk "popular" test of `__chain_b`: active when
`len(b) >= 200`; a character is popular when it occurs more than
`len(b) // 100 + 1` times in `b`. -/
def isPopular (b : List Char) (c : Char) : Bool :=
  decide (200 ≤ b.length) &&
    decide (b.length / 100 + 1 < (positionsOf b c).length)

/-- The map `b2j` with popular entries purged (with `isjunk = None` there is no junk
purge). -/
def b2jOf (b : List Char) (c : Char) : List Nat :=
  if isPopular b c then [] else positionsOf b c

/-- Reading of `j2len.get(j - 1, 0)`: read key `j - 1` of the previous row, `0` when
`j = 0` (Python reads the absent key `-1`). -/
def prevAt (m : Nat → Nat) (j : Nat) : Nat :=
  if j = 0 then 0 else m (j - 1)

/-- The occurrence list of `a[i]` restricted to `blo ≤ j < bhi` (the
`continue`/`break` guards of the inner loop; the list is ascending, so the
`break` keeps exactly the filtered elements). -/
def jsOf (b2j : Char → List Nat) (blo bhi : Nat) (c : Char) : List Nat :=
  (b2j c).filter (fun j => decide (blo ≤ j) && decide (j < bhi))

/-- One row of the `find_longest_match` dynamic program: process the
occurrence list `js` in ascending order; `k = j2len.get(j-1, 0) + 1` and the
best block is replaced exactly when `k > bestsize`. -/
def dpRow (i : Nat) (m : Nat → Nat) (js : List Nat) (best : MBlock) :
    MBlock :=
  js.foldl
    (fun best j =>
      if best.size < prevAt m j + 1 then
        ⟨i + 1 - (prevAt m j + 1), j + 1 - (prevAt m j + 1), prevAt m j + 1⟩
      else best)
    best

/-- The new row `newj2len`: defined exactly on the keys of `js`, where it
stores `j2len.get(j-1, 0) + 1`. -/
def newRow (m : Nat → Nat) (js : List Nat) : Nat → Nat :=
  fun j => if js.contains j then prevAt m j + 1 else 0

/-- One step (one value of `i`) of the `find_longest_match` dynamic
program: compute the occurrence list of `a[i]`, fold it into the best
block, and build the new row from the old one. -/
def flmStep (a : List Char) (b2j : Char → List Nat) (blo bhi : Nat)
    (st : (Nat → Nat) × MBlock) (i : Nat) : (Nat → Nat) × MBlock :=
  (newRow st.1 (jsOf b2j blo bhi (a.getD i ' ')),
   dpRow i st.1 (jsOf b2j blo bhi (a.getD i ' ')) st.2)

/-- The dynamic program of `find_longest_match` over `i in range(alo, ahi)`,
carrying the row `j2len` and the best block, initially `(alo, blo, 0)`. -/
def flmDP (a : List Char) (b2j : Char → List Nat) (alo ahi blo bhi : Nat) :
    (Nat → Nat) × MBlock :=
  (List.range' alo (ahi - alo)).foldl (flmStep a b2j blo bhi)
    (fun _ => 0, ⟨alo, blo, 0⟩)

/-- The backward extension loop of `find_longest_match`: with `bjunk` empty
its guard is plain character equality.  Each iteration decrements `besti`,
so `besti` itself is enough fuel for the structural recursion; when the
fuel runs out `besti` has reached `0 ≤ alo` and the guard is false anyway. -/
def extBack (a b : List Char) (alo blo : Nat) :
    Nat → MBlock → MBlock
  | 0, best => best
  | n + 1, best =>
    if alo < best.besti ∧ blo < best.bestj ∧
        a.getD (best.besti - 1) ' ' = b.getD (best.bestj - 1) ' ' then
      extBack a b alo blo n ⟨best.besti - 1, best.bestj - 1, best.size + 1⟩
    else best

/-- The forward extension loop of `find_longest_match` (again with plain
equality guard); `ahi` bounds the number of iterations since
`besti + bestsize` increases strictly below `ahi`. -/
def extFwd (a b : List Char) (ahi bhi : Nat) :
    Nat → MBlock → Nat
  | 0, best => best.size
  | n + 1, best =>
    if best.besti + best.size < ahi ∧ best.bestj + best.size < bhi ∧
        a.getD (best.besti + best.size) ' ' =
          b.getD (best.bestj + best.size) ' ' then
      extFwd a b ahi bhi n ⟨best.besti, best.bestj, best.size + 1⟩
    else best.size

/-- Model of `find_longest_match(alo, ahi, blo, bhi)`: dynamic program, then the two
equality extension loops (the final junk extension loops of the source
never fire because `bjunk` is empty). -/
def find_longest_match (a b : List Char) (b2j : Char → List Nat)
    (alo ahi blo bhi : Nat) : MBlock :=
  let best := (flmDP a b2j alo ahi blo bhi).2
  let best2 := extBack a b alo blo best.besti best
  ⟨best2.besti, best2.bestj, extFwd a b ahi bhi ahi best2⟩

/-- Model of `get_matching_blocks` as a fuel-driven recursion (the source uses an
explicit queue plus sorting and merging of adjacent blocks; the merging
only concatenates adjacent blocks, so the total matched size, which is all
`ratio` consumes, is the same).  The recursion guards mirror the queue
pushes of the source. -/
def gmbAux (a b : List Char) (b2j : Char → List Nat) :
    Nat → Nat → Nat → Nat → Nat → List MBlock
  | 0, _, _, _, _ => []
  | fuel + 1, alo, ahi, blo, bhi =>
    let m := find_longest_match a b b2j alo ahi blo bhi
    if m.size = 0 then []
    else
      (if alo < m.besti ∧ blo < m.bestj then
        gmbAux a b b2j fuel alo m.besti blo m.bestj
      else []) ++
      [m] ++
      (if m.besti + m.size < ahi ∧ m.bestj + m.size < bhi then
        gmbAux a b b2j fuel (m.besti + m.size) ahi (m.bestj + m.size) bhi
      else [])

/-- The matching blocks of `SequenceMatcher(None, a, b)`. -/
def matching_blocks (a b : List Char) : List MBlock :=
  gmbAux a b (b2jOf b) (a.length + b.length + 1) 0 a.length 0 b.length

/-- The total number of matched elements (`matches` in `ratio`). -/
def matchesTotal (a b : List Char) : Nat :=
  ((matching_blocks a b).map MBlock.size).sum

/-- Model of `SequenceMatcher(None, a, b).ratio()` as a rational number. -/
def smRatio (a b : List Char) : ℚ :=
  if a.length + b.length = 0 then 1
  else (2 * matchesTotal a b : ℚ) / ((a.length : ℚ) + (b.length : ℚ))

/-! ### Support definitions for reasoning about the matcher on `(x, x)`

The reflexivity proof (`smRatio x x = 1`) tracks the dynamic program of
`find_longest_match` on two copies of `x`.  `vis x j` says position `j` of
`x` survives the popular purge; `dvr x j` is the length of the maximal run
of visible positions ending at `j` (the value the program stores on the
diagonal); `matchLen x i j` is the exact value the row `j2len` holds at key
`j` after processing index `i` over the full ranges. -/

/-- Position `j` of `b` is visible to the dynamic program: in range and its
character was not purged as popular. -/
def vis (b : List Char) (j : Nat) : Bool :=
  decide (j < b.length) && !isPopular b (b.getD j ' ')

/-- Length of the maximal run of visible positions of `x` ending at `j`. -/
def dvr (x : List Char) : Nat → Nat
  | 0 => if vis x 0 then 1 else 0
  | j + 1 => if vis x (j + 1) then dvr x j + 1 else 0

/-- The value of the `find_longest_match` row `j2len` at key `j` after
processing index `i`, when both sequences are `x` and the ranges are full:
a chain counting matching visible positions down the diagonal through
`(i, j)`. -/
def matchLen (x : List Char) : Nat → Nat → Nat
  | 0, j =>
    if vis x j && (x.getD j ' ' == x.getD 0 ' ') then 1 else 0
  | i + 1, 0 =>
    if vis x 0 && (x.getD 0 ' ' == x.getD (i + 1) ' ') then 1 else 0
  | i + 1, j + 1 =>
    if vis x (j + 1) && (x.getD (j + 1) ' ' == x.getD (i + 1) ' ') then
      matchLen x i j + 1
    else 0

/-- Invariant of the dynamic program of `find_longest_match` on `(x, x)`
over full ranges, after processing `i` indices: the row equals
`matchLen x (i - 1)`, and the best block is diagonal, ends within the
processed prefix, and dominates every diagonal visible run seen so far. -/
def StInv (x : List Char) (i : Nat) (st : (Nat → Nat) × MBlock) : Prop :=
  (∀ j, st.1 j = if i = 0 then 0 else matchLen x (i - 1) j) ∧
  st.2.besti = st.2.bestj ∧
  st.2.besti + st.2.size ≤ i ∧
  (∀ p, p < i → dvr x p ≤ st.2.size)

/-! ## `calculate_title_similarity` (download.py lines 57-74) -/

/-- The regex class `\w` on its ASCII fragment: letters, digits and
underscore. -/
def isWordChar (c : Char) : Bool :=
  c.isAlphanum || c = '_'

/-- State machine for `re.sub(r'\s+', ' ', t)`: each maximal whitespace run
emits a single space at its first character; `inRun` records whether the
previous character was whitespace. -/
def collapseWsAux : Bool → List Char → List Char
  | _, [] => []
  | inRun, c :: rest =>
    if pyIsSpace c then
      if inRun then collapseWsAux true rest
      else ' ' :: collapseWsAux true rest
    else c :: collapseWsAux false rest

/-- Model of `re.sub(r'\s+', ' ', t)`. -/
def collapseWs (s : List Char) : List Char :=
  collapseWsAux false s

/-- Model of `normalize_title`: lowercase, drop `[^\w\s]`, collapse whitespace runs
to single spaces, strip. -/
def normalize_title (t : List Char) : List Char :=
  pyStrip (collapseWs ((pyLower t).filter
    (fun c => isWordChar c || pyIsSpace c)))

/-- Model of `calculate_title_similarity`: the `SequenceMatcher` ratio of the two
normalized titles. -/
def calculate_title_similarity (title1 title2 : List Char) : ℚ :=
  smRatio (normalize_title title1) (normalize_title title2)

/-! ## The search-and-match selection (download.py lines 137-151) -/

/-- The constant `DEFAULT_SIMILARITY_THRESHOLD = 0.8`, as the rational 4/5 (the float
literal denotes the same decimal value for every comparison appearing in
the claims). -/
def DEFAULT_SIMILARITY_THRESHOLD : ℚ := 4 / 5

/-- Outcome of the candidate selection of `download_papers`: either
"no sufficiently similar match" or acceptance of the retained best
candidate with its score. -/
inductive SearchDecision where
  | notFound : SearchDecision
  | accept (best : List Char) (score : ℚ) : SearchDecision
deriving Repr, DecidableEq

/-- One iteration of the selection loop: the best candidate and score are
replaced exactly when `similarity > best_similarity`. -/
def selStep (title : List Char) (acc : Option (List Char) × ℚ)
    (paper : List Char) : Option (List Char) × ℚ :=
  if acc.2 < calculate_title_similarity title paper then
    (some paper, calculate_title_similarity title paper)
  else acc

/-- The selection loop over the returned candidate titles, starting from
`best_match = None`, `best_similarity = 0`. -/
def selectBest (title : List Char) (cands : List (List Char)) :
    Option (List Char) × ℚ :=
  cands.foldl (selStep title) (none, 0)

/-- The decision after the loop: not-found when `best_match is None or
best_similarity < similarity_threshold`, otherwise the best match is
accepted (and downloaded). -/
def searchDecision (title : List Char) (cands : List (List Char))
    (thr : ℚ) : SearchDecision :=
  match selectBest title cands with
  | (none, _) => .notFound
  | (some best, score) =>
    if score < thr then .notFound else .accept best score

/-! ## `download_from_url` (download.py lines 33-55) -/

/-- A filesystem: map from filenames to file contents (byte lists).  Only
the download directory is modelled, so keys are bare filenames. -/
abbrev FS : Type := List Char → Option (List Nat)

/-- What `requests.get(url, stream=True)` produced: either a raised
exception (connection failure etc.), or a response carrying whether
`raise_for_status()` raises, the optional `content-type` header, and the
body chunks yielded by `iter_content`. -/
inductive GetOutcome where
  | raises : GetOutcome
  | resp (statusBad : Bool) (contentType : Option (List Char))
      (chunks : List (List Nat)) : GetOutcome

/-- Contents written by the chunk loop; `if chunk:` skips empty chunks,
which does not change the concatenation. -/
def writtenBody (chunks : List (List Nat)) : List Nat :=
  (chunks.filter (fun c => !c.isEmpty)).flatten

/-- The body of the `try` of `download_from_url`: raises (`.error`) on a
`requests` error or a bad status; returns `False` without touching the
filesystem when the declared content type (lower-cased, absent header read
as the empty string) does not contain "pdf"; otherwise writes the body to
`filepath` and returns `True`. -/
def download_from_url_body (g : GetOutcome) (fs : FS)
    (filepath : List Char) : Except Unit (Bool × FS) :=
  match g with
  | .raises => .error ()
  | .resp statusBad ct chunks =>
    if statusBad then .error ()
    else if !hasSubstr "pdf".data (pyLower (ct.getD [])) then
      .ok (false, fs)
    else
      .ok (true,
        fun p => if p = filepath then some (writtenBody chunks) else fs p)

/-- Model of `download_from_url`: the body wrapped in `except Exception`, which
turns any raised error into `False` with the filesystem unchanged. -/
def download_from_url (g : GetOutcome) (fs : FS) (filepath : List Char) :
    Bool × FS :=
  match download_from_url_body g fs filepath with
  | .error _ => (false, fs)
  | .ok r => r

/-! ## The orchestrator `download_papers` (download.py lines 85-193) -/

/-- The three result buckets. -/
inductive Bucket where
  | downloaded : Bucket
  | failed : Bucket
  | notFound : Bucket
deriving Repr, DecidableEq

/-- Externally visible calls made while processing one title. -/
inductive Effect where
  | search (query : List Char) : Effect
  | callDownloadFromUrl (url : List Char) : Effect
  | callDownloadPdf (title : List Char) : Effect
  | sleep : Effect
deriving Repr, DecidableEq

/-- Outcome of `best_match.download_pdf(...)`: success with the written
content, a raised `URLError` (caught by the inner handler), or any other
raised exception (escaping to the outer handler). -/
inductive PdfOutcome where
  | ok (content : List Nat) : PdfOutcome
  | raisesURLError : PdfOutcome
  | raisesOther : PdfOutcome

/-- Environment for processing one title: what the network does for this
title on each path. -/
structure TitleEnv where
  get : GetOutcome
  searchRaises : Bool
  results : List (List Char)
  pdf : PdfOutcome

/-- Model of `title.replace(':', ' ').replace('-', ' ')`, the query cleanup. -/
def searchQueryOf (title : List Char) : List Char :=
  (title.map (fun c => if c = ':' then ' ' else c)).map
    (fun c => if c = '-' then ' ' else c)

/-- Result of processing one title: its classification, the entry recorded
in the corresponding list, the calls performed, and the filesystem after
the step. -/
structure StepResult where
  bucket : Bucket
  entry : List Char
  effects : List Effect
  fs : FS

/-- The body of the outer `try` of the search path; `.error effs` is an
exception escaping to the outer `except Exception` handler after the calls
`effs` were made.  The `except StopIteration: continue` handler of the
source is unreachable (PEP 479: a generator cannot leak `StopIteration`,
and nothing else in the guarded block raises it), so it has no
representation here.  The inner `except URLError` turns a `URLError` from
`download_pdf` into a failed classification. -/
def searchPathBody (env : TitleEnv) (fs : FS) (title : List Char)
    (thr : ℚ) : Except (List Effect) StepResult :=
  if env.searchRaises then .error [.search (searchQueryOf title)]
  else
    match searchDecision title env.results thr with
    | .notFound =>
      .ok ⟨.notFound, title, [.search (searchQueryOf title)], fs⟩
    | .accept best _ =>
      if (fs (sanitize_filename title)).isSome then
        .ok ⟨.downloaded, title ++ " (ArXiv title: ".data ++ best ++ ")".data,
          [.search (searchQueryOf title)], fs⟩
      else
        match env.pdf with
        | .ok content =>
          .ok ⟨.downloaded,
            title ++ " (ArXiv title: ".data ++ best ++ ")".data,
            [.search (searchQueryOf title), .callDownloadPdf title, .sleep],
            fun p => if p = sanitize_filename title then some content
              else fs p⟩
        | .raisesURLError =>
          .ok ⟨.failed, title,
            [.search (searchQueryOf title), .callDownloadPdf title], fs⟩
        | .raisesOther =>
          .error [.search (searchQueryOf title), .callDownloadPdf title]

/-- Processing of one title by the loop of `download_papers`: dispatch on
an embedded URL; on the direct path check the target file before calling
`download_from_url`; on the search path run the body under the outer
`except Exception` handler, which classifies the title as failed. -/
def processTitle (env : TitleEnv) (fs : FS) (title_text : List Char)
    (thr : ℚ) : StepResult :=
  match extract_url_and_title title_text with
  | (some url, title) =>
    if (fs (sanitize_filename title)).isSome then
      ⟨.downloaded, title ++ " (URL: ".data ++ url ++ ")".data, [], fs⟩
    else
      match download_from_url env.get fs (sanitize_filename title) with
      | (true, fs') =>
        ⟨.downloaded, title ++ " (URL: ".data ++ url ++ ")".data,
          [.callDownloadFromUrl url, .sleep], fs'⟩
      | (false, fs') =>
        ⟨.failed, title ++ " (URL: ".data ++ url ++ ")".data,
          [.callDownloadFromUrl url], fs'⟩
  | (none, title) =>
    match searchPathBody env fs title thr with
    | .ok r => r
    | .error effs => ⟨.failed, title, effs, fs⟩

/-- The accumulated state of `download_papers`: the three ordered result
lists and the filesystem. -/
structure RunState where
  successful_downloads : List (List Char)
  failed_downloads : List (List Char)
  title_mismatches : List (List Char)
  fs : FS

/-- One iteration of the `for title_text in titles` loop: process the
title and append its entry to the list of its bucket. -/
def stepTitle (env : TitleEnv) (thr : ℚ) (st : RunState)
    (title_text : List Char) : RunState :=
  match processTitle env st.fs title_text thr with
  | ⟨.downloaded, entry, _, fs'⟩ =>
    ⟨st.successful_downloads ++ [entry], st.failed_downloads,
      st.title_mismatches, fs'⟩
  | ⟨.failed, entry, _, fs'⟩ =>
    ⟨st.successful_downloads, st.failed_downloads ++ [entry],
      st.title_mismatches, fs'⟩
  | ⟨.notFound, entry, _, fs'⟩ =>
    ⟨st.successful_downloads, st.failed_downloads,
      st.title_mismatches ++ [entry], fs'⟩

/-- The loop of `download_papers` over the remaining titles; the
environment is indexed by the position of the title in the input list. -/
def downloadLoop (envs : Nat → TitleEnv) (thr : ℚ) :
    Nat → RunState → List (List Char) → RunState
  | _, st, [] => st
  | i, st, t :: rest => downloadLoop envs thr (i + 1) (stepTitle (envs i) thr st t) rest

/-- Model of `download_papers(titles, similarity_threshold)` over an initial
filesystem and a network environment. -/
def download_papers (envs : Nat → TitleEnv) (fs0 : FS)
    (titles : List (List Char)) (thr : ℚ) : RunState :=
  downloadLoop envs thr 0 ⟨[], [], [], fs0⟩ titles

/-! ## Input loading (download.py lines 200-204) -/

/-- Python `s.split(sep)` for a one-character separator: always returns at
least one field, keeps empty fields. -/
def pySplit (sep : Char) : List Char → List (List Char)
  | [] => [[]]
  | c :: rest =>
    if c = sep then [] :: pySplit sep rest
    else (c :: (pySplit sep rest).headD []) :: (pySplit sep rest).tail

/-- The test `'Paper Title' in line`: the header test of the loader. -/
def isHeaderLine (line : List Char) : Bool :=
  hasSubstr "Paper Title".data line

/-- The `titles` comprehension: split the input on newlines, keep each
line that is non-blank (`line.strip()` truthy) and not a header, and
record `line.split('\t')[0].strip()`. -/
def titles (input_text : List Char) : List (List Char) :=
  ((pySplit '\n' input_text).filter
    (fun line => !(pyStrip line).isEmpty && !isHeaderLine line)).map
    (fun line => pyStrip ((pySplit '\t' line).headD []))

/-- The first tab-delimited field of a line, as the claim describes it:
the characters before the first tab. -/
def firstTabField (line : List Char) : List Char :=
  line.takeWhile (fun c => !(c == '\t'))

/-! ## Theorems -/

theorem matchHttpAt_pos {cs : List Char} {l : Nat}
    (h : matchHttpAt cs = some l) : 1 ≤ l := by
  unfold matchHttpAt at h
  split at h
  · split at h
    · cases h; omega
    · split at h
      · cases h; omega
      · cases h
  · cases h

theorem matchUrlAt_pos {cs : List Char} {l : Nat}
    (h : matchUrlAt cs = some l) : 1 ≤ l := by
  unfold matchUrlAt at h
  split at h
  · rename_i heq
    cases h
    exact matchHttpAt_pos heq
  · unfold matchWwwAt at h
    split at h
    · split at h
      · cases h; omega
      · cases h
    · cases h

theorem reSearchAux_eq_head :
    ∀ (fuel : Nat) (cs : List Char) (i : Nat), cs.length ≤ fuel →
      reSearchAux i cs = (urlMatchesFuel fuel i cs).head? := by
  intro fuel
  induction fuel with
  | zero =>
    intro cs i h
    have : cs = [] := List.eq_nil_of_length_eq_zero (by omega)
    subst this
    rfl
  | succ fuel ih =>
    intro cs i h
    cases cs with
    | nil => rfl
    | cons c rest =>
      rw [reSearchAux, urlMatchesFuel]
      cases hm : matchUrlAt (c :: rest) with
      | some l => simp only [List.head?_cons]
      | none =>
        simp only
        exact ih rest (i + 1) (by simp at h; omega)

theorem reSubFuel_of_no_matches :
    ∀ (fuel : Nat) (cs : List Char) (i : Nat), cs.length ≤ fuel →
      urlMatchesFuel fuel i cs = [] → reSubFuel fuel cs = cs := by
  intro fuel
  induction fuel with
  | zero =>
    intro cs i h _
    have : cs = [] := List.eq_nil_of_length_eq_zero (by omega)
    subst this
    rfl
  | succ fuel ih =>
    intro cs i h hmat
    cases cs with
    | nil => rfl
    | cons c rest =>
      rw [urlMatchesFuel] at hmat
      rw [reSubFuel]
      cases hm : matchUrlAt (c :: rest) with
      | some l => rw [hm] at hmat; simp at hmat
      | none =>
        rw [hm] at hmat
        simp only
        exact congrArg (c :: ·) (ih rest (i + 1) (by simp at h; omega) hmat)

theorem reSubFuel_single_match :
    ∀ (fuel : Nat) (cs : List Char) (i s l : Nat), cs.length ≤ fuel →
      urlMatchesFuel fuel i cs = [(s, l)] →
      i ≤ s ∧ reSubFuel fuel cs = cs.take (s - i) ++ cs.drop (s - i + l) := by
  intro fuel
  induction fuel with
  | zero =>
    intro cs i s l h hmat
    have : cs = [] := List.eq_nil_of_length_eq_zero (by omega)
    subst this
    cases hmat
  | succ fuel ih =>
    intro cs i s l h hmat
    cases cs with
    | nil => cases hmat
    | cons c rest =>
      have hlen : rest.length ≤ fuel := by simp at h; omega
      rw [urlMatchesFuel] at hmat
      rw [reSubFuel]
      cases hm : matchUrlAt (c :: rest) with
      | some lm =>
        rw [hm] at hmat
        simp only [List.cons.injEq, Prod.mk.injEq] at hmat
        obtain ⟨⟨his, hlm⟩, htail⟩ := hmat
        subst his
        have hlm' : l = lm := hlm.symm
        subst hlm'
        have hpos := matchUrlAt_pos hm
        have hdlen : (rest.drop (l - 1)).length ≤ fuel := by
          rw [List.length_drop]; omega
        have htl := reSubFuel_of_no_matches fuel _ _ hdlen htail
        refine ⟨le_rfl, ?_⟩
        simp only [htl, Nat.sub_self, List.take_zero, List.nil_append,
          Nat.zero_add]
        have hl1 : l = (l - 1) + 1 := by omega
        conv_rhs => rw [hl1]
        rw [List.drop_succ_cons]
      | none =>
        rw [hm] at hmat
        obtain ⟨hle, hrec⟩ := ih rest (i + 1) s l hlen hmat
        refine ⟨by omega, ?_⟩
        simp only
        have hsil : s - i + l = ((s - (i + 1)) + l) + 1 := by omega
        have hsi : s - i = (s - (i + 1)) + 1 := by omega
        rw [hrec, hsil, hsi, List.take_succ_cons, List.drop_succ_cons,
          List.cons_append]

/-- Claim C5 counterexample: on the input "http://a b http://c" the parser
returns the first URL "http://a" (matched at start 0 with length 8), but the
returned title is "b", not the input with that URL substring removed and
trimmed (which would be "b http://c"): `re.sub` deletes every match of the
pattern, not only the returned one. -/
theorem extract_url_and_title_cex :
    reSearchUrl "http://a b http://c".data = some (0, 8) ∧
    (extract_url_and_title "http://a b http://c".data).1 =
      some "http://a".data ∧
    (extract_url_and_title "http://a b http://c".data).2 = "b".data ∧
    pyStrip ("http://a b http://c".data.take 0 ++
      "http://a b http://c".data.drop (0 + 8)) = "b http://c".data ∧
    "b".data ≠ ("b http://c".data : List Char) := by
  decide

/-- Claim C5 (amended): for a title without a URL-pattern match the parser
returns no URL and the original title unchanged; for a title with a match it
returns the leftmost matched URL substring and the title with EVERY match of
the URL pattern removed, then trimmed.  In particular, when the title
contains exactly one match, the returned title is the input with that URL
substring removed and trimmed, as the original claim stated. -/
theorem extract_url_and_title_spec (t : List Char) :
    (reSearchUrl t = none → extract_url_and_title t = (none, t)) ∧
    (∀ s l, reSearchUrl t = some (s, l) →
      extract_url_and_title t =
        (some ((t.drop s).take l), pyStrip (reSubUrl t))) ∧
    (∀ s l, urlMatchesOf t = [(s, l)] →
      extract_url_and_title t =
        (some ((t.drop s).take l), pyStrip (t.take s ++ t.drop (s + l)))) := by
  refine ⟨?_, ?_, ?_⟩
  · intro h
    unfold extract_url_and_title
    rw [h]
  · intro s l h
    unfold extract_url_and_title
    rw [h]
  · intro s l h
    rw [urlMatchesOf] at h
    have hsearch : reSearchUrl t = some (s, l) := by
      rw [reSearchUrl, reSearchAux_eq_head t.length t 0 le_rfl, h]
      rfl
    obtain ⟨-, hsub⟩ := reSubFuel_single_match t.length t 0 s l le_rfl h
    unfold extract_url_and_title
    rw [hsearch]
    rw [reSubUrl, hsub]
    simp only [Nat.sub_zero]

/-- Witness for `extract_url_and_title_spec` at the input
"see www.foo.com now", whose only match is "www.foo.com" at start 4,
length 11. -/
theorem extract_url_and_title_spec_witness :
    urlMatchesOf "see www.foo.com now".data = [(4, 11)] ∧
    extract_url_and_title "see www.foo.com now".data =
      (some (("see www.foo.com now".data.drop 4).take 11),
       pyStrip ("see www.foo.com now".data.take 4 ++
         "see www.foo.com now".data.drop (4 + 11))) :=
  ⟨by decide,
   (extract_url_and_title_spec "see www.foo.com now".data).2.2 4 11 (by decide)⟩

theorem band_elim {a b : Bool} (h : (a && b) = true) :
    a = true ∧ b = true := by
  simp only [Bool.and_eq_true] at h
  exact h

theorem mem_positionsOf {b : List Char} {c : Char} {j : Nat} :
    j ∈ positionsOf b c ↔ j < b.length ∧ b.getD j ' ' = c := by
  simp [positionsOf, List.mem_filter, List.mem_range]

theorem mem_b2jOf {b : List Char} {c : Char} {j : Nat} :
    j ∈ b2jOf b c ↔
      isPopular b c = false ∧ j < b.length ∧ b.getD j ' ' = c := by
  unfold b2jOf
  split
  · rename_i hp
    simp [hp]
  · rename_i hp
    simp only [Bool.not_eq_true] at hp
    simp [hp, mem_positionsOf]

theorem vis_iff {x : List Char} {j : Nat} :
    vis x j = true ↔
      j < x.length ∧ isPopular x (x.getD j ' ') = false := by
  simp [vis]

theorem mem_jsOf_self {x : List Char} {j : Nat} {c : Char} :
    j ∈ jsOf (b2jOf x) 0 x.length c ↔
      vis x j = true ∧ x.getD j ' ' = c := by
  unfold jsOf
  simp only [List.mem_filter, mem_b2jOf, Bool.and_eq_true, decide_eq_true_eq]
  constructor
  · rintro ⟨⟨hpop, hlt, hchar⟩, -⟩
    exact ⟨vis_iff.2 ⟨hlt, hchar ▸ hpop⟩, hchar⟩
  · rintro ⟨hv, hchar⟩
    obtain ⟨hlt, hpop⟩ := vis_iff.1 hv
    exact ⟨⟨hchar ▸ hpop, hlt, hchar⟩, Nat.zero_le j, hlt⟩

theorem jsOf_sorted (x : List Char) (blo bhi : Nat) (c : Char) :
    (jsOf (b2jOf x) blo bhi c).Pairwise (· < ·) := by
  unfold jsOf b2jOf
  split
  · simp
  · exact (List.pairwise_lt_range _).filter _ |>.filter _

theorem vis_transport {x : List Char} {i j : Nat} (hv : vis x j = true)
    (hc : x.getD j ' ' = x.getD i ' ') (hi : i < x.length) :
    vis x i = true := by
  obtain ⟨-, hpop⟩ := vis_iff.1 hv
  exact vis_iff.2 ⟨hi, hc ▸ hpop⟩

theorem one_le_dvr_of_vis {x : List Char} {j : Nat} (h : vis x j = true) :
    1 ≤ dvr x j := by
  cases j with
  | zero => simp [dvr, h]
  | succ j => simp [dvr, h]

theorem dvr_eq_zero_of_not_vis {x : List Char} {j : Nat}
    (h : vis x j = false) : dvr x j = 0 := by
  cases j with
  | zero => simp [dvr, h]
  | succ j => simp [dvr, h]

theorem matchLen_le_dvr (x : List Char) :
    ∀ i j, matchLen x i j ≤ dvr x j := by
  intro i
  induction i with
  | zero =>
    intro j
    rw [matchLen]
    split
    · rename_i h
      exact one_le_dvr_of_vis (band_elim h).1
    · exact Nat.zero_le _
  | succ i ih =>
    intro j
    cases j with
    | zero =>
      rw [matchLen]
      split
      · rename_i h
        exact one_le_dvr_of_vis (band_elim h).1
      · exact Nat.zero_le _
    | succ j =>
      rw [matchLen]
      split
      · rename_i h
        have hv : vis x (j + 1) = true := (band_elim h).1
        rw [dvr, if_pos hv]
        exact Nat.succ_le_succ (ih j)
      · exact Nat.zero_le _

theorem matchLen_le_left (x : List Char) :
    ∀ i j, matchLen x i j ≤ i + 1 := by
  intro i
  induction i with
  | zero =>
    intro j
    rw [matchLen]
    split <;> omega
  | succ i ih =>
    intro j
    cases j with
    | zero =>
      rw [matchLen]
      split <;> omega
    | succ j =>
      rw [matchLen]
      split
      · exact Nat.succ_le_succ (ih j)
      · omega

theorem matchLen_le_dvr_left (x : List Char) :
    ∀ i j, i < x.length → matchLen x i j ≤ dvr x i := by
  intro i
  induction i with
  | zero =>
    intro j h0
    rw [matchLen]
    split
    · rename_i h
      obtain ⟨hv, hc⟩ := band_elim h
      exact one_le_dvr_of_vis (vis_transport hv (beq_iff_eq.1 hc) h0)
    · exact Nat.zero_le _
  | succ i ih =>
    intro j hi
    cases j with
    | zero =>
      rw [matchLen]
      split
      · rename_i h
        obtain ⟨hv, hc⟩ := band_elim h
        exact one_le_dvr_of_vis (vis_transport hv (beq_iff_eq.1 hc) hi)
      · exact Nat.zero_le _
    | succ j =>
      rw [matchLen]
      split
      · rename_i h
        obtain ⟨hv, hc⟩ := band_elim h
        have hvi : vis x (i + 1) = true :=
          vis_transport hv (beq_iff_eq.1 hc) hi
        rw [dvr, if_pos hvi]
        exact Nat.succ_le_succ (ih j (by omega))
      · exact Nat.zero_le _

theorem matchLen_diag (x : List Char) :
    ∀ i, i < x.length → matchLen x i i = dvr x i := by
  intro i
  induction i with
  | zero =>
    intro _
    rw [matchLen, dvr]
    simp only [beq_self_eq_true, Bool.and_true]
  | succ i ih =>
    intro hi
    rw [matchLen, dvr]
    simp only [beq_self_eq_true, Bool.and_true]
    split
    · rw [ih (by omega)]
    · rfl

theorem matchLen_eq_zero_of_cond_false {x : List Char} {i j : Nat}
    (h : (vis x j && (x.getD j ' ' == x.getD i ' ')) = false) :
    matchLen x i j = 0 := by
  cases i with
  | zero => rw [matchLen, if_neg (ne_true_of_eq_false h)]
  | succ i' =>
    cases j with
    | zero => rw [matchLen, if_neg (ne_true_of_eq_false h)]
    | succ j' => rw [matchLen, if_neg (ne_true_of_eq_false h)]

theorem prevAt_eq_matchLen {x : List Char} {i : Nat} {m : Nat → Nat}
    (hrow : ∀ j, m j = if i = 0 then 0 else matchLen x (i - 1) j)
    {j : Nat} (hv : vis x j = true)
    (hc : x.getD j ' ' = x.getD i ' ') :
    prevAt m j + 1 = matchLen x i j := by
  have hcond : (vis x j && (x.getD j ' ' == x.getD i ' ')) = true := by
    rw [hv, hc]
    simp
  cases i with
  | zero =>
    rw [matchLen, if_pos hcond]
    cases j with
    | zero => simp [prevAt]
    | succ j' => simp [prevAt, hrow j']
  | succ i' =>
    cases j with
    | zero =>
      rw [matchLen, if_pos hcond]
      simp [prevAt]
    | succ j' =>
      rw [matchLen, if_pos hcond]
      simp [prevAt, hrow j']

theorem dpRow_cons (i : Nat) (m : Nat → Nat) (j : Nat) (js : List Nat)
    (best : MBlock) :
    dpRow i m (j :: js) best =
      dpRow i m js
        (if best.size < prevAt m j + 1 then
          ⟨i + 1 - (prevAt m j + 1), j + 1 - (prevAt m j + 1),
            prevAt m j + 1⟩
        else best) := rfl

theorem dpRow_append (i : Nat) (m : Nat → Nat) (L R : List Nat)
    (best : MBlock) :
    dpRow i m (L ++ R) best = dpRow i m R (dpRow i m L best) :=
  List.foldl_append _ _ _ _

theorem dpRow_no_update {i : Nat} {m : Nat → Nat} :
    ∀ {js : List Nat} {best : MBlock},
      (∀ j ∈ js, prevAt m j + 1 ≤ best.size) →
      dpRow i m js best = best := by
  intro js
  induction js with
  | nil => intro best _; rfl
  | cons j js ih =>
    intro best h
    rw [dpRow_cons, if_neg (by have := h j (by simp); omega)]
    exact ih (fun j' hj' => h j' (by simp [hj']))

theorem sorted_mem_split {l : List Nat} {a : Nat}
    (hs : l.Pairwise (· < ·)) (ha : a ∈ l) :
    ∃ L R, l = L ++ a :: R ∧ (∀ j ∈ L, j < a) ∧ (∀ j ∈ R, a < j) := by
  obtain ⟨L, R, rfl⟩ := List.append_of_mem ha
  rw [List.pairwise_append] at hs
  obtain ⟨-, hR, hLR⟩ := hs
  refine ⟨L, R, rfl, fun j hj => hLR j hj a (by simp), fun j hj => ?_⟩
  exact (List.pairwise_cons.1 hR).1 j hj

theorem newRow_eq_matchLen {x : List Char} {i : Nat} {m : Nat → Nat}
    (hrow : ∀ j, m j = if i = 0 then 0 else matchLen x (i - 1) j) :
    ∀ j, newRow m (jsOf (b2jOf x) 0 x.length (x.getD i ' ')) j =
      matchLen x i j := by
  intro j
  unfold newRow
  by_cases hmem : j ∈ jsOf (b2jOf x) 0 x.length (x.getD i ' ')
  · obtain ⟨hv, hc⟩ := mem_jsOf_self.1 hmem
    rw [if_pos (by simpa [List.contains] using hmem)]
    exact prevAt_eq_matchLen hrow hv hc
  · rw [if_neg (by simpa [List.contains] using hmem)]
    have hcond : (vis x j && (x.getD j ' ' == x.getD i ' ')) = false := by
      rcases hb : (vis x j && (x.getD j ' ' == x.getD i ' ')) with _ | _
      · rfl
      · exfalso
        obtain ⟨hv, hc⟩ := band_elim hb
        exact hmem (mem_jsOf_self.2 ⟨hv, beq_iff_eq.1 hc⟩)
    exact (matchLen_eq_zero_of_cond_false hcond).symm

theorem flmStep_inv {x : List Char} {i : Nat}
    {st : (Nat → Nat) × MBlock} (hi : i < x.length)
    (hinv : StInv x i st) :
    StInv x (i + 1) (flmStep x (b2jOf x) 0 x.length st i) := by
  obtain ⟨hrow, hdiag, hbound, hdom⟩ := hinv
  refine ⟨?_, ?_⟩
  · intro j
    simp only [flmStep]
    rw [newRow_eq_matchLen hrow j]
    simp
  · simp only [flmStep]
    by_cases hempty : jsOf (b2jOf x) 0 x.length (x.getD i ' ') = []
    · rw [hempty]
      simp only [dpRow, List.foldl_nil]
      refine ⟨hdiag, by omega, fun p hp => ?_⟩
      rcases Nat.lt_succ_iff_lt_or_eq.1 hp with hp' | rfl
      · exact hdom p hp'
      · have hv : vis x p = false := by
          rcases hb : vis x p with _ | _
          · rfl
          · exfalso
            have hmemp : p ∈ jsOf (b2jOf x) 0 x.length (x.getD p ' ') :=
              mem_jsOf_self.2 ⟨hb, rfl⟩
            rw [hempty] at hmemp
            simp at hmemp
        rw [dvr_eq_zero_of_not_vis hv]
        omega
    · obtain ⟨j0, hj0⟩ := List.exists_mem_of_ne_nil _ hempty
      obtain ⟨hv0, hc0⟩ := mem_jsOf_self.1 hj0
      have hvi : vis x i = true := vis_transport hv0 hc0 hi
      have hmi : i ∈ jsOf (b2jOf x) 0 x.length (x.getD i ' ') :=
        mem_jsOf_self.2 ⟨hvi, rfl⟩
      obtain ⟨L, R, hsplit, hL, hR⟩ :=
        sorted_mem_split (jsOf_sorted x 0 x.length (x.getD i ' ')) hmi
      have hmemOf : ∀ j, j ∈ L ∨ j ∈ R →
          prevAt st.1 j + 1 = matchLen x i j := by
        intro j hj
        have hjs : j ∈ jsOf (b2jOf x) 0 x.length (x.getD i ' ') := by
          rw [hsplit]
          rcases hj with hj | hj
          · exact List.mem_append.2 (Or.inl hj)
          · exact List.mem_append.2 (Or.inr (List.mem_cons_of_mem _ hj))
        obtain ⟨hv, hc⟩ := mem_jsOf_self.1 hjs
        exact prevAt_eq_matchLen hrow hv hc
      have hnoL : ∀ j ∈ L, prevAt st.1 j + 1 ≤ st.2.size := by
        intro j hj
        rw [hmemOf j (Or.inl hj)]
        exact le_trans (matchLen_le_dvr x i j) (hdom j (hL j hj))
      have hk : prevAt st.1 i + 1 = matchLen x i i :=
        prevAt_eq_matchLen hrow hvi rfl
      have hkd : matchLen x i i = dvr x i := matchLen_diag x i hi
      have hkb : matchLen x i i ≤ i + 1 := matchLen_le_left x i i
      rw [hsplit, dpRow_append, dpRow_no_update hnoL, dpRow_cons]
      by_cases hupd : st.2.size < prevAt st.1 i + 1
      · rw [if_pos hupd]
        have hnoR : ∀ j ∈ R, prevAt st.1 j + 1 ≤
            (MBlock.mk (i + 1 - (prevAt st.1 i + 1))
              (i + 1 - (prevAt st.1 i + 1)) (prevAt st.1 i + 1)).size := by
          intro j hj
          rw [hmemOf j (Or.inr hj)]
          simp only
          rw [hk]
          exact le_trans (matchLen_le_dvr_left x i j hi) (le_of_eq hkd.symm)
        rw [dpRow_no_update hnoR]
        refine ⟨rfl, by simp only; omega, fun p hp => ?_⟩
        rcases Nat.lt_succ_iff_lt_or_eq.1 hp with hp' | rfl
        · have := hdom p hp'
          simp only
          omega
        · simp only
          omega
      · rw [if_neg hupd]
        have hnoR : ∀ j ∈ R, prevAt st.1 j + 1 ≤ st.2.size := by
          intro j hj
          rw [hmemOf j (Or.inr hj)]
          have h1 : matchLen x i j ≤ dvr x i := matchLen_le_dvr_left x i j hi
          omega
        rw [dpRow_no_update hnoR]
        refine ⟨hdiag, by omega, fun p hp => ?_⟩
        rcases Nat.lt_succ_iff_lt_or_eq.1 hp with hp' | rfl
        · exact hdom p hp'
        · omega

theorem flmDP_foldInv (x : List Char) :
    ∀ (k i : Nat) (st : (Nat → Nat) × MBlock), i + k = x.length →
      StInv x i st →
      StInv x (i + k)
        ((List.range' i k).foldl (flmStep x (b2jOf x) 0 x.length) st) := by
  intro k
  induction k with
  | zero =>
    intro i st _ hinv
    simpa using hinv
  | succ k ih =>
    intro i st h hinv
    rw [List.range'_succ, List.foldl_cons]
    have h1 := @flmStep_inv x i st (by omega) hinv
    have h2 := ih (i + 1) _ (by omega) h1
    have he : i + 1 + k = i + (k + 1) := by omega
    rw [he] at h2
    exact h2

theorem flmDP_self_inv (x : List Char) :
    StInv x x.length (flmDP x (b2jOf x) 0 x.length 0 x.length) := by
  have h0 : StInv x 0 ((fun _ => 0 : Nat → Nat), (⟨0, 0, 0⟩ : MBlock)) := by
    refine ⟨fun j => rfl, rfl, by simp, fun p hp => absurd hp (by omega)⟩
  have h := flmDP_foldInv x x.length 0 _ (by omega) h0
  simpa [flmDP] using h

theorem extBack_diag (x : List Char) (d : Nat) :
    ∀ s, extBack x x 0 0 d ⟨d, d, s⟩ = ⟨0, 0, s + d⟩ := by
  induction d with
  | zero => intro s; rfl
  | succ d ih =>
    intro s
    rw [extBack, if_pos ⟨Nat.succ_pos d, Nat.succ_pos d, rfl⟩]
    simp only [Nat.add_sub_cancel]
    rw [ih (s + 1)]
    have he : s + 1 + d = s + (d + 1) := by omega
    rw [he]

theorem extFwd_diag (x : List Char) :
    ∀ (fuel s : Nat), s ≤ x.length → x.length ≤ s + fuel →
      extFwd x x x.length x.length fuel ⟨0, 0, s⟩ = x.length := by
  intro fuel
  induction fuel with
  | zero =>
    intro s h1 h2
    rw [extFwd]
    show s = x.length
    omega
  | succ fuel ih =>
    intro s h1 h2
    rw [extFwd]
    by_cases hs : s < x.length
    · rw [if_pos ⟨by simpa using hs, by simpa using hs, rfl⟩]
      exact ih (s + 1) (by omega) (by omega)
    · rw [if_neg (by simp only [Nat.zero_add]; tauto)]
      show s = x.length
      omega

theorem flm_self (x : List Char) :
    find_longest_match x x (b2jOf x) 0 x.length 0 x.length =
      ⟨0, 0, x.length⟩ := by
  obtain ⟨-, hdiag, hbound, -⟩ := flmDP_self_inv x
  simp only [find_longest_match]
  rcases hbest : (flmDP x (b2jOf x) 0 x.length 0 x.length).2 with ⟨bi, bj, bs⟩
  rw [hbest] at hdiag hbound
  simp only at hdiag hbound
  subst hdiag
  rw [extBack_diag x bi bs]
  rw [extFwd_diag x x.length (bs + bi) (by omega) (by omega)]

theorem matching_blocks_self (x : List Char) (h : x.length ≠ 0) :
    matching_blocks x x = [⟨0, 0, x.length⟩] := by
  unfold matching_blocks
  rw [gmbAux, flm_self]
  simp only [h, if_false]
  simp

theorem smRatio_self (x : List Char) : smRatio x x = 1 := by
  unfold smRatio
  by_cases h : x.length = 0
  · rw [if_pos (by omega)]
  · rw [if_neg (by omega)]
    unfold matchesTotal
    rw [matching_blocks_self x h]
    simp only [List.map_cons, List.map_nil, List.sum_cons, List.sum_nil]
    have hx : ((x.length : ℚ)) ≠ 0 := Nat.cast_ne_zero.2 h
    field_simp
    ring

/-- Claim C4 counterexample: the similarity score is not symmetric.  On the
pair "ab", "bacb" (both already in normalized form) the matcher finds two
matched characters in one direction but only one in the other, so the
scores are 2/3 and 1/3. -/
theorem calculate_title_similarity_not_symm :
    calculate_title_similarity "ab".data "bacb".data = 2 / 3 ∧
    calculate_title_similarity "bacb".data "ab".data = 1 / 3 ∧
    calculate_title_similarity "ab".data "bacb".data ≠
      calculate_title_similarity "bacb".data "ab".data := by
  have hn1 : normalize_title "ab".data = "ab".data := by decide
  have hn2 : normalize_title "bacb".data = "bacb".data := by decide
  have hm1 : matchesTotal "ab".data "bacb".data = 2 := by decide
  have hm2 : matchesTotal "bacb".data "ab".data = 1 := by decide
  have hl1 : ("ab".data).length = 2 := by decide
  have hl2 : ("bacb".data).length = 4 := by decide
  have e1 : calculate_title_similarity "ab".data "bacb".data = 2 / 3 := by
    unfold calculate_title_similarity smRatio
    rw [hn1, hn2, hm1, hl1, hl2]
    norm_num
  have e2 : calculate_title_similarity "bacb".data "ab".data = 1 / 3 := by
    unfold calculate_title_similarity smRatio
    rw [hn1, hn2, hm2, hl1, hl2]
    norm_num
  refine ⟨e1, e2, ?_⟩
  rw [e1, e2]
  norm_num

/-- Claim C4 (amended): for every string the similarity score of the string
with itself is 1; the symmetry half of the original claim is false (see
`calculate_title_similarity_not_symm`). -/
theorem calculate_title_similarity_self (s : List Char) :
    calculate_title_similarity s s = 1 := by
  unfold calculate_title_similarity
  exact smRatio_self _

theorem selStep_snd_le (title : List Char)
    (acc : Option (List Char) × ℚ) (paper : List Char) :
    acc.2 ≤ (selStep title acc paper).2 := by
  unfold selStep
  split
  · rename_i h
    exact le_of_lt h
  · exact le_rfl

theorem selectBest_le_aux (title : List Char) :
    ∀ (cands : List (List Char)) (acc : Option (List Char) × ℚ),
      acc.2 ≤ (cands.foldl (selStep title) acc).2 := by
  intro cands
  induction cands with
  | nil => intro acc; exact le_rfl
  | cons d cands ih =>
    intro acc
    rw [List.foldl_cons]
    exact le_trans (selStep_snd_le title acc d) (ih _)

theorem selectBest_max_aux (title : List Char) :
    ∀ (cands : List (List Char)) (acc : Option (List Char) × ℚ),
      ∀ c ∈ cands, calculate_title_similarity title c ≤
        (cands.foldl (selStep title) acc).2 := by
  intro cands
  induction cands with
  | nil => intro acc c hc; cases hc
  | cons d cands ih =>
    intro acc c hc
    rw [List.foldl_cons]
    rcases List.mem_cons.1 hc with rfl | hc'
    · refine le_trans ?_ (selectBest_le_aux title cands (selStep title acc c))
      unfold selStep
      split
      · exact le_rfl
      · rename_i h
        exact not_lt.1 h
    · exact ih _ c hc'

theorem selectBest_provenance (title : List Char) :
    ∀ (cands : List (List Char)) (acc : Option (List Char) × ℚ)
      (best : List Char) (score : ℚ),
      cands.foldl (selStep title) acc = (some best, score) →
      acc = (some best, score) ∨
        (best ∈ cands ∧ score = calculate_title_similarity title best) := by
  intro cands
  induction cands with
  | nil =>
    intro acc best score h
    exact Or.inl h
  | cons d cands ih =>
    intro acc best score h
    rw [List.foldl_cons] at h
    rcases ih _ best score h with hstep | ⟨hmem, hsc⟩
    · unfold selStep at hstep
      split at hstep
      · simp only [Prod.mk.injEq, Option.some.injEq] at hstep
        obtain ⟨h1, hsc⟩ := hstep
        subst h1
        exact Or.inr ⟨List.mem_cons_self _ cands, hsc.symm⟩
      · exact Or.inl hstep
    · exact Or.inr ⟨List.mem_cons_of_mem d hmem, hsc⟩

/-- Claim C1: for every input title, candidate set and threshold, the
search-and-match path retains a candidate with the highest similarity score
against the input title (whenever it accepts, the accepted candidate comes
from the candidate set, its score is its similarity to the input title, no
candidate scores higher, and the score meets or exceeds the threshold); on
an empty candidate set, or when every candidate scores below the
threshold, the title is classified not-found. -/
theorem searchDecision_spec (title : List Char)
    (cands : List (List Char)) (thr : ℚ) :
    (∀ best score, searchDecision title cands thr =
        SearchDecision.accept best score →
      best ∈ cands ∧ score = calculate_title_similarity title best ∧
        (∀ c ∈ cands, calculate_title_similarity title c ≤ score) ∧
        thr ≤ score) ∧
    (cands = [] → searchDecision title cands thr =
      SearchDecision.notFound) ∧
    ((∀ c ∈ cands, calculate_title_similarity title c < thr) →
      searchDecision title cands thr = SearchDecision.notFound) := by
  refine ⟨?_, ?_, ?_⟩
  · intro best score hacc
    unfold searchDecision at hacc
    rcases hsel : selectBest title cands with ⟨obest, bscore⟩
    rw [hsel] at hacc
    cases obest with
    | none => simp at hacc
    | some b =>
      simp only at hacc
      by_cases hthr : bscore < thr
      · rw [if_pos hthr] at hacc
        cases hacc
      · rw [if_neg hthr] at hacc
        cases hacc
        rcases selectBest_provenance title cands (none, 0) best score hsel
          with hinit | ⟨hmem, hsc⟩
        · exfalso
          simp at hinit
        · refine ⟨hmem, hsc, fun c hc => ?_, not_lt.1 hthr⟩
          have hmax := selectBest_max_aux title cands (none, 0) c hc
          have hre : (cands.foldl (selStep title) (none, 0)) =
              (some best, score) := hsel
          rw [hre] at hmax
          exact hmax
  · intro h
    subst h
    rfl
  · intro h
    unfold searchDecision
    rcases hsel : selectBest title cands with ⟨obest, bscore⟩
    cases obest with
    | none => rfl
    | some b =>
      simp only
      rcases selectBest_provenance title cands (none, 0) b bscore hsel
        with hinit | ⟨hmem, hsc⟩
      · exfalso
        simp at hinit
      · rw [if_pos (hsc ▸ h b hmem)]

/-- Witness for `searchDecision_spec`: on an empty candidate set with the
default threshold the decision is not-found. -/
theorem searchDecision_spec_witness :
    searchDecision "ab".data [] DEFAULT_SIMILARITY_THRESHOLD =
      SearchDecision.notFound :=
  (searchDecision_spec "ab".data [] DEFAULT_SIMILARITY_THRESHOLD).2.1 rfl

/-- Claim C7: for every fetch outcome, filesystem and target path, the
direct downloader returns failure whenever the response's declared content
type does not indicate a PDF, and any exception raised inside the body
(connection error, bad status) is caught and turned into a plain failure
return with the filesystem unchanged — the call always yields a boolean
and never propagates an exception. -/
theorem download_from_url_spec (g : GetOutcome) (fs : FS)
    (fp : List Char) :
    (∀ statusBad ct chunks, g = GetOutcome.resp statusBad ct chunks →
      hasSubstr "pdf".data (pyLower (ct.getD [])) = false →
      (download_from_url g fs fp).1 = false) ∧
    (∀ e, download_from_url_body g fs fp = Except.error e →
      download_from_url g fs fp = (false, fs)) := by
  constructor
  · rintro statusBad ct chunks rfl hct
    unfold download_from_url download_from_url_body
    cases statusBad
    · simp [hct]
    · simp
  · intro e he
    unfold download_from_url
    rw [he]

/-- Witness for `download_from_url_spec`: a non-PDF content type yields a
failure return. -/
theorem download_from_url_spec_witness :
    (download_from_url
      (GetOutcome.resp false (some "text/html".data) [])
      (fun _ => none) "x.pdf".data).1 = false :=
  (download_from_url_spec _ _ _).1 false (some "text/html".data) [] rfl
    (by decide)

/-- Claim C10: when a successfully fetched response is rejected because its
declared content type does not indicate a PDF, the downloader returns
`False` before the target path is ever opened: the filesystem is returned
unchanged, in particular unchanged at the target path. -/
theorem download_from_url_reject_no_write (fs : FS) (fp : List Char)
    (ct : Option (List Char)) (chunks : List (List Nat))
    (hct : hasSubstr "pdf".data (pyLower (ct.getD [])) = false) :
    download_from_url (GetOutcome.resp false ct chunks) fs fp =
      (false, fs) ∧
    (download_from_url (GetOutcome.resp false ct chunks) fs fp).2 fp =
      fs fp := by
  have h : download_from_url (GetOutcome.resp false ct chunks) fs fp =
      (false, fs) := by
    unfold download_from_url download_from_url_body
    simp [hct]
  exact ⟨h, by rw [h]⟩

/-- Witness for `download_from_url_reject_no_write` on an HTML response
with a nonempty body chunk. -/
theorem download_from_url_reject_no_write_witness :
    download_from_url
      (GetOutcome.resp false (some "text/html".data) [[7]])
      (fun _ => none) "x.pdf".data = (false, fun _ => none) ∧
    (download_from_url
      (GetOutcome.resp false (some "text/html".data) [[7]])
      (fun _ => none) "x.pdf".data).2 "x.pdf".data = none :=
  ⟨(download_from_url_reject_no_write _ _ _ _ (by decide)).1,
   (download_from_url_reject_no_write _ _ _ _ (by decide)).2⟩

theorem downloadLoop_counts (envs : Nat → TitleEnv) (thr : ℚ) :
    ∀ (titles : List (List Char)) (i : Nat) (st : RunState),
      (downloadLoop envs thr i st titles).successful_downloads.length +
        (downloadLoop envs thr i st titles).failed_downloads.length +
        (downloadLoop envs thr i st titles).title_mismatches.length =
        st.successful_downloads.length + st.failed_downloads.length +
          st.title_mismatches.length + titles.length := by
  intro titles
  induction titles with
  | nil =>
    intro i st
    simp [downloadLoop]
  | cons t rest ih =>
    intro i st
    rw [downloadLoop]
    rw [ih (i + 1) (stepTitle (envs i) thr st t)]
    unfold stepTitle
    rcases hr : processTitle (envs i) st.fs t thr with ⟨b, entry, effs, fs'⟩
    cases b <;> simp <;> omega

/-- Claim C3: every processed title ends up in exactly one of the three
result buckets: each loop iteration appends exactly one entry to exactly
one of the three lists, so for every input the final lengths of the
downloaded, failed and not-found lists add up to the number of input
titles — no title is recorded twice and none is left unrecorded. -/
theorem download_papers_three_buckets (envs : Nat → TitleEnv) (fs0 : FS)
    (titles : List (List Char)) (thr : ℚ) :
    (download_papers envs fs0 titles thr).successful_downloads.length +
      (download_papers envs fs0 titles thr).failed_downloads.length +
      (download_papers envs fs0 titles thr).title_mismatches.length =
      titles.length := by
  unfold download_papers
  rw [downloadLoop_counts envs thr titles 0 ⟨[], [], [], fs0⟩]
  simp

/-- Claim C6: errors are caught at per-title granularity: an exception
escaping the search-path body is caught by the outer per-title handler and
the title is recorded as failed; an exception raised inside the direct
downloader is caught there and surfaces as an ordinary failure result with
the filesystem unchanged; and no error aborts the batch — whatever the
environment does, the loop accounts for every remaining title in the three
buckets. -/
theorem per_title_error_handling :
    (∀ (env : TitleEnv) (fs : FS) (t : List Char) (thr : ℚ)
        (effs : List Effect),
      reSearchUrl t = none →
      searchPathBody env fs t thr = Except.error effs →
      (processTitle env fs t thr).bucket = Bucket.failed) ∧
    (∀ (g : GetOutcome) (fs : FS) (fp : List Char),
      download_from_url_body g fs fp = Except.error () →
      download_from_url g fs fp = (false, fs)) ∧
    (∀ (envs : Nat → TitleEnv) (thr : ℚ) (titles : List (List Char))
        (i : Nat) (st : RunState),
      (downloadLoop envs thr i st titles).successful_downloads.length +
        (downloadLoop envs thr i st titles).failed_downloads.length +
        (downloadLoop envs thr i st titles).title_mismatches.length =
        st.successful_downloads.length + st.failed_downloads.length +
          st.title_mismatches.length + titles.length) := by
  refine ⟨?_, ?_, ?_⟩
  · intro env fs t thr effs hurl hbody
    have hext : extract_url_and_title t = (none, t) := by
      unfold extract_url_and_title
      rw [hurl]
    unfold processTitle
    rw [hext]
    simp only
    rw [hbody]
  · intro g fs fp h
    unfold download_from_url
    rw [h]
  · intro envs thr titles i st
    exact downloadLoop_counts envs thr titles i st

/-- Witness for `per_title_error_handling`: a search that raises leads to
a failed classification for that title. -/
theorem per_title_error_handling_witness :
    (processTitle ⟨GetOutcome.raises, true, [], PdfOutcome.raisesOther⟩
      (fun _ => none) "foo".data DEFAULT_SIMILARITY_THRESHOLD).bucket =
      Bucket.failed :=
  per_title_error_handling.1 _ _ "foo".data _ _ (by decide) rfl

/-- Claim C2 counterexample: a pre-existing target file does not by itself
make the orchestrator classify the title as successful.  With every file
present on disk and a search returning no candidates, the title "foo"
takes the search path, finds no acceptable match, and is classified
not-found even though its sanitized target file exists; not-found is not
the successful classification. -/
theorem preexisting_file_cex :
    ((fun _ => some ([] : List Nat) : FS)
      (sanitize_filename (extract_url_and_title "foo".data).2)).isSome =
        true ∧
    (processTitle ⟨GetOutcome.raises, false, [], PdfOutcome.raisesOther⟩
      (fun _ => some []) "foo".data DEFAULT_SIMILARITY_THRESHOLD).bucket =
      Bucket.notFound ∧
    Bucket.notFound ≠ Bucket.downloaded := by
  refine ⟨rfl, rfl, by decide⟩

/-- Claim C2 (amended): for a title whose sanitized target file already
exists, the orchestrator classifies the title successful and performs no
download call — on the direct-URL path unconditionally (the existence
check short-circuits before any call), and on the search path provided the
search raises nothing and yields an accepted best candidate (the check
there runs only after a sufficient match was found; with no acceptable
candidate the title is classified not-found despite the existing file, see
`preexisting_file_cex`). -/
theorem preexisting_file_spec (env : TitleEnv) (fs : FS) (t : List Char)
    (thr : ℚ)
    (hex : (fs (sanitize_filename (extract_url_and_title t).2)).isSome =
      true) :
    (∀ url, (extract_url_and_title t).1 = some url →
      processTitle env fs t thr =
        ⟨Bucket.downloaded,
          (extract_url_and_title t).2 ++ " (URL: ".data ++ url ++ ")".data,
          [], fs⟩) ∧
    ((extract_url_and_title t).1 = none → env.searchRaises = false →
      ∀ best score,
        searchDecision (extract_url_and_title t).2 env.results thr =
          SearchDecision.accept best score →
        processTitle env fs t thr =
          ⟨Bucket.downloaded,
            (extract_url_and_title t).2 ++ " (ArXiv title: ".data ++
              best ++ ")".data,
            [Effect.search (searchQueryOf (extract_url_and_title t).2)],
            fs⟩) := by
  rcases hext : extract_url_and_title t with ⟨ourl, title⟩
  rw [hext] at hex
  simp only at hex ⊢
  constructor
  · rintro url rfl
    unfold processTitle
    rw [hext]
    simp only
    rw [if_pos hex]
  · rintro rfl hraise best score hacc
    unfold processTitle
    rw [hext]
    simp only
    unfold searchPathBody
    rw [hraise]
    simp only [Bool.false_eq_true, if_false]
    rw [hacc]
    simp only
    rw [if_pos hex]

/-- Witness for `preexisting_file_spec`: a title with an embedded URL whose
target file exists is classified successful with no calls at all. -/
theorem preexisting_file_spec_witness :
    processTitle ⟨GetOutcome.raises, false, [], PdfOutcome.raisesOther⟩
      (fun _ => some []) "see http://x.com/a.pdf".data
      DEFAULT_SIMILARITY_THRESHOLD =
      ⟨Bucket.downloaded, "see (URL: http://x.com/a.pdf)".data, [],
        fun _ => some []⟩ :=
  (preexisting_file_spec
    ⟨GetOutcome.raises, false, [], PdfOutcome.raisesOther⟩
    (fun _ => some []) "see http://x.com/a.pdf".data
    DEFAULT_SIMILARITY_THRESHOLD (by rfl)).1
    "http://x.com/a.pdf".data (by rfl)

theorem pySplit_headD (sep : Char) :
    ∀ l : List Char,
      (pySplit sep l).headD [] = l.takeWhile (fun c => !(c == sep)) := by
  intro l
  induction l with
  | nil => rfl
  | cons c rest ih =>
    rw [pySplit, List.takeWhile_cons]
    by_cases hc : c = sep
    · rw [if_pos hc]
      simp [hc]
    · rw [if_neg hc]
      simp only [List.headD_cons]
      rw [ih]
      simp [hc]

/-- Claim C9: for every input text, the extracted title list equals, in
order, the first tab-delimited field (stripped) of each non-blank,
non-header line of the text, where a line is non-blank when stripping it
leaves something (the loader's `line.strip()` truthiness test) and header
lines are exactly those containing "Paper Title". -/
theorem titles_spec (input_text : List Char) :
    titles input_text =
      ((pySplit '\n' input_text).filter
        (fun line => !(pyStrip line).isEmpty && !isHeaderLine line)).map
        (fun line => pyStrip (firstTabField line)) := by
  unfold titles firstTabField
  congr 1
  funext line
  rw [pySplit_headD]

theorem sanitize_mem_aux {c : Char} {title : List Char}
    (h : c ∈ sanitize_filename title) :
    isReservedChar c = false ∧ c ≠ ' ' := by
  unfold sanitize_filename at h
  rcases List.mem_append.1 h with h1 | h2
  · have h1' := List.mem_of_mem_take h1
    rcases List.mem_map.1 h1' with ⟨d, hd, rfl⟩
    have hdr : (!isReservedChar d) = true := (List.mem_filter.1 hd).2
    by_cases hsp : d = ' '
    · subst hsp; simp only [if_pos rfl]; exact ⟨rfl, by decide⟩
    · simp only [if_neg hsp]
      exact ⟨by simpa using hdr, hsp⟩
  · have : c ∈ ['.', 'p', 'd', 'f'] := by simpa using h2
    fin_cases this <;> exact ⟨rfl, by decide⟩

/-- Claim C8: for every title string, the sanitized filename never exceeds
the length bound (240 characters of sanitized title plus the 4-character
extension, 244 in total), contains none of the reserved filesystem
characters, contains no space, and ends with the fixed extension ".pdf". -/
theorem sanitize_filename_spec (title : List Char) :
    (sanitize_filename title).length ≤ 244 ∧
    (∀ c ∈ sanitize_filename title, isReservedChar c = false) ∧
    (∀ c ∈ sanitize_filename title, c ≠ ' ') ∧
    ".pdf".data <:+ sanitize_filename title := by
  refine ⟨?_, fun c hc => (sanitize_mem_aux hc).1,
    fun c hc => (sanitize_mem_aux hc).2, ⟨_, rfl⟩⟩
  unfold sanitize_filename
  have h1 : (((title.filter (fun c => !(isReservedChar c))).map
      (fun c => if c = ' ' then '_' else c)).take 240).length ≤ 240 :=
    List.length_take_le 240 _
  simp only [List.length_append]
  have h2 : (".pdf".data).length = 4 := by decide
  rw [h2]
  omega

end IsmirDL
